import Mathlib

/-!
Shallow embedding of the hand-rolled JSON parser in src/json.rs.

The Rust code works over a mutable character iterator (std Chars); here every
parser takes the remaining input as a List Char and returns its result paired
with the remaining input after the call.  Outcomes are modelled by PRes:
ok / err mirror Result, panic models reaching a todo-style abort in the
source, and outOfFuel is an artefact of the fuel-indexed encoding of the
mutually recursive functions (proved unreachable for sufficient fuel).

Floating point conversion is modelled with exact rationals: the only facts
proved about floats are which constructor is produced, never rounding.
-/

/-- Abbreviation for the string type, usable inside namespaces where the
name String is shadowed by a constructor. -/
abbrev Str := String

/-- Mirrors the variants of the Rust JsonValue enum.  The Rust HashMap in the
Object variant is modelled as an association list with overwrite-on-insert
(mapInsert below); no proved statement depends on iteration order. -/
inductive JsonValue where
  | Array (elems : List JsonValue)
  | Boolean (b : Bool)
  | Float (q : Rat)
  | Integer (i : Int)
  | Null
  | Object (entries : List (String × JsonValue))
  | String (s : String)

/-- Model of the error kinds of Rust i64::from_str (std ParseIntError). -/
inductive IntParseError where
  | empty
  | invalidDigit
  | posOverflow
  | negOverflow
deriving DecidableEq

/-- Model of the error of Rust f64::from_str (std ParseFloatError). -/
inductive FloatParseError where
  | invalid
deriving DecidableEq

/-- Mirrors the variants of the Rust JsonError enum. -/
inductive JsonError where
  | UnexpectedToken
  | UnexpectedTokenCh (c : Char)
  | UnexpectedTokenSt (s : String)
  | UnexpectedEndOfInput
  | IntegerWithLeadingZero
  | BadDecimalPointPlacement
  | OverOneDecimalPoint
  | DecimalPointPlacedAfter (c : Char)
  | InconvertibleToFloat (s : String) (cause : FloatParseError)
  | InconvertibleToInt (s : String) (cause : IntParseError)
  | JsonValueNotType (v : JsonValue) (t : String)

/-- Outcome of a parser call: ok/err mirror Result; panic marks reaching the
todo-style abort in parse_object; outOfFuel is the fuel artefact. -/
inductive PRes where
  | ok (v : JsonValue)
  | err (e : JsonError)
  | panic
  | outOfFuel

/-- Mirrors JsonValue::get_string. -/
def JsonValue.get_string : JsonValue → Option Str
  | .String s => some s
  | _ => none

/-- Model of Rust char::is_whitespace: the Unicode White_Space property. -/
def rust_is_whitespace (c : Char) : Bool :=
  decide ((9 ≤ c.toNat ∧ c.toNat ≤ 13) ∨ c.toNat = 32 ∨ c.toNat = 133 ∨
    c.toNat = 160 ∨ c.toNat = 0x1680 ∨ (0x2000 ≤ c.toNat ∧ c.toNat ≤ 0x200A) ∨
    c.toNat = 0x2028 ∨ c.toNat = 0x2029 ∨ c.toNat = 0x202F ∨
    c.toNat = 0x205F ∨ c.toNat = 0x3000)

/-- Model of Rust char::is_control: the Unicode Cc category. -/
def rust_is_control (c : Char) : Bool :=
  decide (c.toNat ≤ 0x1F ∨ (0x7F ≤ c.toNat ∧ c.toNat ≤ 0x9F))

/-- Model of Rust char::is_digit(10), i.e. an ASCII decimal digit. -/
def rust_is_digit10 (c : Char) : Bool :=
  decide (48 ≤ c.toNat ∧ c.toNat ≤ 57)

/-- Numeric value of a run of ASCII digits. -/
def digitsVal (ds : List Char) : Nat :=
  ds.foldl (fun a c => a * 10 + (c.toNat - 48)) 0

def i64Max : Int := 9223372036854775807

def i64Min : Int := -9223372036854775808

/-- Digit-accumulation loop of Rust i64::from_str: checked arithmetic over the
signed 64-bit range, left to right. -/
def i64go (pos : Bool) (acc : Int) (cs : List Char) : Except IntParseError Int :=
  match cs with
  | [] => .ok acc
  | c :: rest =>
    if rust_is_digit10 c then
      let d : Int := (c.toNat - 48 : Nat)
      if pos then
        if acc * 10 + d > i64Max then .error .posOverflow
        else i64go pos (acc * 10 + d) rest
      else
        if acc * 10 - d < i64Min then .error .negOverflow
        else i64go pos (acc * 10 - d) rest
    else .error .invalidDigit

/-- Model of Rust i64::from_str: optional sign, then one or more digits. -/
def rustParseI64 (s : List Char) : Except IntParseError Int :=
  match s with
  | [] => .error .empty
  | _ =>
    let pd : Bool × List Char :=
      match s with
      | '+' :: r => (true, r)
      | '-' :: r => (false, r)
      | _ => (true, s)
    if pd.2 = [] then .error .invalidDigit else i64go pd.1 0 pd.2

/-- Model of Rust f64::from_str on the decimal grammar (sign, integer part,
optional fraction).  Exponent, inf and nan forms are unreachable from
parse_number buffers, whose characters are digits, a minus sign and dots.
The value is the exact rational; IEEE rounding is abstracted away. -/
def rustParseF64 (s : List Char) : Except FloatParseError Rat :=
  let nd : Bool × List Char :=
    match s with
    | '-' :: r => (true, r)
    | '+' :: r => (false, r)
    | _ => (false, s)
  let ip := nd.2.takeWhile rust_is_digit10
  let rest := nd.2.dropWhile rust_is_digit10
  match rest with
  | [] =>
    if ip = [] then .error .invalid
    else .ok (if nd.1 then -(digitsVal ip : Rat) else (digitsVal ip : Rat))
  | '.' :: fr =>
    let fp := fr.takeWhile rust_is_digit10
    if fr.dropWhile rust_is_digit10 ≠ [] then .error .invalid
    else if ip = [] ∧ fp = [] then .error .invalid
    else
      let q : Rat := (digitsVal ip : Rat) + (digitsVal fp : Rat) / ((10 : Rat) ^ fp.length)
      .ok (if nd.1 then -q else q)
  | _ => .error .invalid

/-- Mirrors parse_boolean: after head t (resp. f) it consumes up to 3
(resp. 4) characters and compares them with rue (resp. alse); the characters
are consumed even when the comparison fails, as with Iterator::take. -/
def parse_boolean (head : Char) (tail : List Char) : PRes × List Char :=
  if head = 't' then
    if tail.take 3 = ['r', 'u', 'e'] then (.ok (.Boolean true), tail.drop 3)
    else (.err .UnexpectedToken, tail.drop 3)
  else if head = 'f' then
    if tail.take 4 = ['a', 'l', 's', 'e'] then (.ok (.Boolean false), tail.drop 4)
    else (.err .UnexpectedToken, tail.drop 4)
  else (.err .UnexpectedToken, tail)

/-- Decoding of the character after a backslash in parse_string: the five
named escapes map to their control characters, anything else is kept as is. -/
def escape_char (e : Char) : Char :=
  if e = 'n' then '\n'
  else if e = 'r' then '\r'
  else if e = 't' then '\t'
  else if e = 'b' then '\u0008'
  else if e = 'f' then '\u000C'
  else e

/-- Mirrors the while-let loop of parse_string.  On an unescaped closing
quote the source returns format of head then buffer, i.e. the head character
is prepended to the decoded content; on exhaustion it returns Ok(Null); an
escape at end of input is UnexpectedEndOfInput. -/
def parseStringLoop : Char → String → List Char → PRes × List Char
  | _, _, [] => (.ok .Null, [])
  | head, buffer, c :: rest =>
    if c = '"' then (.ok (.String (String.singleton head ++ buffer)), rest)
    else if c = '\\' then
      match rest with
      | [] => (.err .UnexpectedEndOfInput, [])
      | e :: rest2 => parseStringLoop head (buffer.push (escape_char e)) rest2
    else parseStringLoop head (buffer.push c) rest

/-- Mirrors parse_string: reject a head other than a double quote, then run
the accumulation loop. -/
def parse_string (head : Char) (tail : List Char) : PRes × List Char :=
  if head ≠ '"' then (.err .UnexpectedToken, tail)
  else parseStringLoop head "" tail

/-- Mirrors the while-let loop of parse_number: accumulate digits and at most
one decimal point into the buffer, terminating on a comma, closing brace,
closing bracket (all consumed) or end of input.  Returns the buffer together
with the floating_point flag, or the error the source raises.  As in the
source, previous is updated only when a digit is consumed. -/
def parseNumberLoop (buffer : String) (fp : Bool) (previous : Char) (cs : List Char) :
    Except JsonError (String × Bool) × List Char :=
  match cs with
  | [] => (.ok (buffer, fp), [])
  | c :: rest =>
    if c = ',' ∨ c = '\x7d' ∨ c = ']' then (.ok (buffer, fp), rest)
    else if c = '.' then
      if fp then (.error .OverOneDecimalPoint, rest)
      else if ¬ rust_is_digit10 previous then (.error (.DecimalPointPlacedAfter previous), rest)
      else parseNumberLoop (buffer.push c) true previous rest
    else if rust_is_digit10 c then parseNumberLoop (buffer.push c) fp c rest
    else (.error (.UnexpectedTokenCh c), rest)

/-- Mirrors parse_number: head must be a digit or a minus sign; after the
accumulation loop the buffer is converted with f64 parsing when a decimal
point was seen and with i64 parsing otherwise. -/
def parse_number (head : Char) (tail : List Char) : PRes × List Char :=
  if ¬ (rust_is_digit10 head ∨ head = '-') then (.err (.UnexpectedTokenCh head), tail)
  else
    match parseNumberLoop (String.singleton head) false head tail with
    | (.error e, rest) => (.err e, rest)
    | (.ok (buf, fp), rest) =>
      if fp then
        match rustParseF64 buf.data with
        | .ok q => (.ok (.Float q), rest)
        | .error e => (.err (.InconvertibleToFloat buf e), rest)
      else
        match rustParseI64 buf.data with
        | .ok i => (.ok (.Integer i), rest)
        | .error e => (.err (.InconvertibleToInt buf e), rest)

/-- Overwrite-on-insert association-list model of HashMap::insert. -/
def mapInsert (m : List (String × JsonValue)) (k : String) (v : JsonValue) :
    List (String × JsonValue) :=
  if m.any (fun p => p.1 = k) then m.map (fun p => if p.1 = k then (k, v) else p)
  else m ++ [(k, v)]

mutual

/-- Mirrors parse_value, indexed by fuel.  Fuel decreases at every recursive
call; since every call also consumes at least one input character, fuel
exceeding the input length is enough (proved below), and parse_json below
supplies such fuel. -/
def parseValueF : Nat → List Char → PRes × List Char
  | 0, cs => (.outOfFuel, cs)
  | _ + 1, [] => (.err .UnexpectedEndOfInput, [])
  | f + 1, c :: cs =>
    if rust_is_whitespace c ∨ rust_is_control c then parseValueF f cs
    else if c = 't' ∨ c = 'f' then parse_boolean c cs
    else if c = '"' then parse_string c cs
    else if rust_is_digit10 c ∨ c = '-' then parse_number c cs
    else if c = '\x7b' then parseObjectLoopF f c [] none none cs
    else if c = '[' then parseArrayLoopF f [] cs
    else (.err (.UnexpectedTokenCh c), cs)

/-- Mirrors the while-let loop of parse_array: skip whitespace, control
characters and commas, stop on a closing bracket, otherwise dispatch
parse_value on the input after the consumed character (as the source does:
the character matched by the loop is not handed to parse_value).  On
exhaustion the source returns the accumulated elements as a success. -/
def parseArrayLoopF : Nat → List JsonValue → List Char → PRes × List Char
  | 0, _, cs => (.outOfFuel, cs)
  | _ + 1, buf, [] => (.ok (.Array buf), [])
  | f + 1, buf, c :: cs =>
    if rust_is_whitespace c ∨ rust_is_control c then parseArrayLoopF f buf cs
    else if c = ']' then (.ok (.Array buf), cs)
    else if c = ',' then parseArrayLoopF f buf cs
    else
      match parseValueF f cs with
      | (.ok v, rest) => parseArrayLoopF f (buf ++ [v]) rest
      | (r, rest) => (r, rest)

/-- Mirrors the while-let loop of parse_object.  The head parameter is the
character parse_object received (the opening brace), which the source also
passes as the head of parse_string when reading a key.  The two write-only
flags of the source (awaiting_val, awiating_col) are omitted: they are never
read.  On exhaustion the source reaches todo!(), modelled as panic. -/
def parseObjectLoopF : Nat → Char → List (Str × JsonValue) → Option Str →
    Option JsonValue → List Char → PRes × List Char
  | 0, _, _, _, _, cs => (.outOfFuel, cs)
  | _ + 1, _, _, _, _, [] => (.panic, [])
  | f + 1, head, buffer, key, value, c :: cs =>
    if rust_is_whitespace c ∨ rust_is_control c then
      parseObjectLoopF f head buffer key value cs
    else if c = ':' then
      match key, value with
      | some k, none =>
        match parseValueF f cs with
        | (.ok v, rest) => parseObjectLoopF f head (mapInsert buffer k v) none none rest
        | (r, rest) => (r, rest)
      | _, _ => parseObjectLoopF f head buffer key value cs
    else if c = ',' ∨ c = '\x7d' then
      match key, value with
      | some k, some v => parseObjectLoopF f head (mapInsert buffer k v) none none cs
      | _, _ => parseObjectLoopF f head buffer key value cs
    else if c = '"' then
      match key, value with
      | none, none =>
        match parse_string head cs with
        | (.ok v, rest) =>
          match v.get_string with
          | some s => parseObjectLoopF f head buffer (some s) value rest
          | none => parseObjectLoopF f head buffer key value rest
        | (r, rest) => (r, rest)
      | _, _ => parseObjectLoopF f head buffer key value cs
    else parseObjectLoopF f head buffer key value cs

end

/-- Mirrors parse_array: the head parameter is unused in the source. -/
def parse_arrayF (f : Nat) (_head : Char) (tail : List Char) : PRes × List Char :=
  parseArrayLoopF f [] tail

/-- Mirrors parse_object: reject a head other than an opening brace, then run
the member loop with empty state. -/
def parse_objectF (f : Nat) (head : Char) (tail : List Char) : PRes × List Char :=
  if head ≠ '\x7b' then (.err .UnexpectedToken, tail)
  else parseObjectLoopF f head [] none none tail

/-- Mirrors parse_json: iterate over the characters of the input string and
dispatch parse_value once.  The fuel is one more than the input length,
which the termination development below proves sufficient. -/
def parse_json (json : String) : PRes :=
  (parseValueF (json.length + 1) json.data).1


/-! Consumption lemmas: every parser returns a suffix of its input, so the
remaining input never grows.  These feed the termination development. -/

theorem parse_boolean_rest_le (head : Char) (tail : List Char) :
    (parse_boolean head tail).2.length ≤ tail.length := by
  unfold parse_boolean
  split_ifs <;> simp [List.length_drop]

theorem parseStringLoop_rest_le :
    ∀ (n : Nat) (cs : List Char), cs.length ≤ n → ∀ (head : Char) (buffer : String),
      (parseStringLoop head buffer cs).2.length ≤ cs.length := by
  intro n
  induction n with
  | zero =>
    intro cs hcs head buffer
    have hnil : cs = [] := List.length_eq_zero.mp (Nat.le_zero.mp hcs)
    subst hnil
    simp [parseStringLoop]
  | succ n ih =>
    intro cs hcs head buffer
    rcases cs with _ | ⟨c, _ | ⟨e, rest2⟩⟩
    · simp [parseStringLoop]
    · simp only [parseStringLoop]
      split_ifs <;> simp [parseStringLoop]
    · have h1 := ih rest2 (by simp at hcs; omega) head (buffer.push (escape_char e))
      have h2 := ih (e :: rest2) (by simp at hcs ⊢; omega) head (buffer.push c)
      simp only [List.length_cons] at h1 h2 ⊢
      simp only [parseStringLoop, List.length_cons]
      split_ifs <;> (try simp) <;> omega

theorem parse_string_rest_le (head : Char) (tail : List Char) :
    (parse_string head tail).2.length ≤ tail.length := by
  unfold parse_string
  split_ifs with h1
  · simp
  · exact parseStringLoop_rest_le tail.length tail (Nat.le_refl _) head ""

theorem parseNumberLoop_rest_le (cs : List Char) :
    ∀ (buffer : String) (fp : Bool) (previous : Char),
      (parseNumberLoop buffer fp previous cs).2.length ≤ cs.length := by
  induction cs with
  | nil => intro buffer fp previous; simp [parseNumberLoop]
  | cons c rest ih =>
    intro buffer fp previous
    have hr1 := ih (buffer.push c) true previous
    have hr2 := ih (buffer.push c) fp c
    simp only [parseNumberLoop, List.length_cons]
    split_ifs <;> (try simp) <;> omega

theorem parse_number_rest_le (head : Char) (tail : List Char) :
    (parse_number head tail).2.length ≤ tail.length := by
  unfold parse_number
  rcases hres : parseNumberLoop (String.singleton head) false head tail with ⟨r, rest⟩
  have hrest : rest.length ≤ tail.length := by
    have h := parseNumberLoop_rest_le tail (String.singleton head) false head
    rw [hres] at h
    simpa using h
  split_ifs with h1
  · cases r with
    | error e => simpa using hrest
    | ok p =>
      rcases p with ⟨buf, fp⟩
      cases fp with
      | false => cases hI : rustParseI64 buf.data <;> simp [hI, hrest]
      | true => cases hF : rustParseF64 buf.data <;> simp [hF, hrest]
  · simp

theorem parseValueF_rest_le_aux :
    ∀ f : Nat,
      (∀ cs, (parseValueF f cs).2.length ≤ cs.length) ∧
      (∀ buf cs, (parseArrayLoopF f buf cs).2.length ≤ cs.length) ∧
      (∀ head buffer key value cs,
        (parseObjectLoopF f head buffer key value cs).2.length ≤ cs.length) := by
  intro f
  induction f with
  | zero =>
    refine ⟨fun cs => ?_, fun buf cs => ?_, fun head buffer key value cs => ?_⟩ <;>
      simp [parseValueF, parseArrayLoopF, parseObjectLoopF]
  | succ f ih =>
    obtain ⟨ihv, iha, iho⟩ := ih
    refine ⟨fun cs => ?_, fun buf cs => ?_, fun head buffer key value cs => ?_⟩
    · rcases cs with _ | ⟨c, cs⟩
      · simp [parseValueF]
      · simp only [parseValueF, List.length_cons]
        split_ifs
        · exact le_trans (ihv cs) (by omega)
        · exact le_trans (parse_boolean_rest_le c cs) (by omega)
        · exact le_trans (parse_string_rest_le c cs) (by omega)
        · exact le_trans (parse_number_rest_le c cs) (by omega)
        · exact le_trans (iho c [] none none cs) (by omega)
        · exact le_trans (iha [] cs) (by omega)
        · simp
    · rcases cs with _ | ⟨c, cs⟩
      · simp [parseArrayLoopF]
      · simp only [parseArrayLoopF, List.length_cons]
        split_ifs
        · exact le_trans (iha buf cs) (by omega)
        · simp
        · exact le_trans (iha buf cs) (by omega)
        · rcases hres : parseValueF f cs with ⟨r, rest⟩
          have hrest : rest.length ≤ cs.length := by
            have h := ihv cs
            rw [hres] at h
            simpa using h
          cases r with
          | ok v =>
            dsimp only
            exact le_trans (le_trans (iha (buf ++ [v]) rest) hrest) (by omega)
          | err e => dsimp only; omega
          | panic => dsimp only; omega
          | outOfFuel => dsimp only; omega
    · rcases cs with _ | ⟨c, cs⟩
      · simp [parseObjectLoopF]
      · simp only [parseObjectLoopF, List.length_cons]
        split_ifs
        · exact le_trans (iho head buffer key value cs) (by omega)
        · cases key with
          | none => exact le_trans (iho _ _ _ _ cs) (by omega)
          | some k =>
            cases value with
            | some v => exact le_trans (iho _ _ _ _ cs) (by omega)
            | none =>
              dsimp only
              rcases hres : parseValueF f cs with ⟨r, rest⟩
              have hrest : rest.length ≤ cs.length := by
                have h := ihv cs
                rw [hres] at h
                simpa using h
              cases r with
              | ok v =>
                dsimp only
                exact le_trans (le_trans (iho _ _ _ _ rest) hrest) (by omega)
              | err e => dsimp only; omega
              | panic => dsimp only; omega
              | outOfFuel => dsimp only; omega
        · cases key <;> cases value <;> exact le_trans (iho _ _ _ _ cs) (by omega)
        · cases key with
          | some k => cases value <;> exact le_trans (iho _ _ _ _ cs) (by omega)
          | none =>
            cases value with
            | some v => exact le_trans (iho _ _ _ _ cs) (by omega)
            | none =>
              dsimp only
              rcases hres : parse_string head cs with ⟨r, rest⟩
              have hrest : rest.length ≤ cs.length := by
                have h := parse_string_rest_le head cs
                rw [hres] at h
                simpa using h
              cases r with
              | ok v =>
                dsimp only
                rcases hgs : v.get_string with _ | s <;> dsimp only <;>
                  exact le_trans (le_trans (iho _ _ _ _ rest) hrest) (by omega)
              | err e => dsimp only; omega
              | panic => dsimp only; omega
              | outOfFuel => dsimp only; omega
        · exact le_trans (iho _ _ _ _ cs) (by omega)

theorem parseValueF_rest_le (f : Nat) (cs : List Char) :
    (parseValueF f cs).2.length ≤ cs.length :=
  (parseValueF_rest_le_aux f).1 cs

theorem parseArrayLoopF_rest_le (f : Nat) (buf : List JsonValue) (cs : List Char) :
    (parseArrayLoopF f buf cs).2.length ≤ cs.length :=
  (parseValueF_rest_le_aux f).2.1 buf cs

theorem parseObjectLoopF_rest_le (f : Nat) (head : Char) (buffer : List (Str × JsonValue))
    (key : Option Str) (value : Option JsonValue) (cs : List Char) :
    (parseObjectLoopF f head buffer key value cs).2.length ≤ cs.length :=
  (parseValueF_rest_le_aux f).2.2 head buffer key value cs

/-! Fuel sufficiency: since every step consumes input, fuel exceeding the
remaining input length never runs out.  Together with the consumption lemmas
this is the termination argument of the claim on liveness. -/

theorem parse_boolean_ne_outOfFuel (head : Char) (tail : List Char) :
    (parse_boolean head tail).1 ≠ PRes.outOfFuel := by
  unfold parse_boolean
  split_ifs <;> simp

theorem parseStringLoop_ne_outOfFuel :
    ∀ (n : Nat) (cs : List Char), cs.length ≤ n → ∀ (head : Char) (buffer : String),
      (parseStringLoop head buffer cs).1 ≠ PRes.outOfFuel := by
  intro n
  induction n with
  | zero =>
    intro cs hcs head buffer
    have hnil : cs = [] := List.length_eq_zero.mp (Nat.le_zero.mp hcs)
    subst hnil
    simp [parseStringLoop]
  | succ n ih =>
    intro cs hcs head buffer
    rcases cs with _ | ⟨c, _ | ⟨e, rest2⟩⟩
    · simp [parseStringLoop]
    · simp only [parseStringLoop]
      split_ifs <;> simp [parseStringLoop]
    · have h1 := ih rest2 (by simp at hcs; omega) head (buffer.push (escape_char e))
      have h2 := ih (e :: rest2) (by simp at hcs ⊢; omega) head (buffer.push c)
      simp only [parseStringLoop]
      split_ifs <;> (try simp) <;> assumption

theorem parse_string_ne_outOfFuel (head : Char) (tail : List Char) :
    (parse_string head tail).1 ≠ PRes.outOfFuel := by
  unfold parse_string
  split_ifs with h1
  · simp
  · exact parseStringLoop_ne_outOfFuel tail.length tail (Nat.le_refl _) head ""

theorem parse_number_ne_outOfFuel (head : Char) (tail : List Char) :
    (parse_number head tail).1 ≠ PRes.outOfFuel := by
  unfold parse_number
  rcases hres : parseNumberLoop (String.singleton head) false head tail with ⟨r, rest⟩
  split_ifs with h1
  · cases r with
    | error e => simp
    | ok p =>
      rcases p with ⟨buf, fp⟩
      cases fp with
      | false => cases hI : rustParseI64 buf.data <;> simp [hI]
      | true => cases hF : rustParseF64 buf.data <;> simp [hF]
  · simp

theorem parseValueF_no_outOfFuel_aux :
    ∀ f : Nat,
      (∀ cs, cs.length < f → (parseValueF f cs).1 ≠ PRes.outOfFuel) ∧
      (∀ buf cs, cs.length < f → (parseArrayLoopF f buf cs).1 ≠ PRes.outOfFuel) ∧
      (∀ head buffer key value cs, cs.length < f →
        (parseObjectLoopF f head buffer key value cs).1 ≠ PRes.outOfFuel) := by
  intro f
  induction f with
  | zero =>
    exact ⟨fun cs h => absurd h (Nat.not_lt_zero _),
      fun buf cs h => absurd h (Nat.not_lt_zero _),
      fun head buffer key value cs h => absurd h (Nat.not_lt_zero _)⟩
  | succ f ih =>
    obtain ⟨ihv, iha, iho⟩ := ih
    refine ⟨fun cs hlen => ?_, fun buf cs hlen => ?_,
      fun head buffer key value cs hlen => ?_⟩
    · rcases cs with _ | ⟨c, cs⟩
      · simp [parseValueF]
      · simp only [List.length_cons] at hlen
        simp only [parseValueF]
        split_ifs
        · exact ihv cs (by omega)
        · exact parse_boolean_ne_outOfFuel c cs
        · exact parse_string_ne_outOfFuel c cs
        · exact parse_number_ne_outOfFuel c cs
        · exact iho c [] none none cs (by omega)
        · exact iha [] cs (by omega)
        · simp
    · rcases cs with _ | ⟨c, cs⟩
      · simp [parseArrayLoopF]
      · simp only [List.length_cons] at hlen
        simp only [parseArrayLoopF]
        split_ifs
        · exact iha buf cs (by omega)
        · simp
        · exact iha buf cs (by omega)
        · rcases hres : parseValueF f cs with ⟨r, rest⟩
          have hrest : rest.length ≤ cs.length := by
            have h := parseValueF_rest_le f cs
            rw [hres] at h
            simpa using h
          cases r with
          | ok v => exact iha (buf ++ [v]) rest (by omega)
          | err e => simp
          | panic => simp
          | outOfFuel =>
            have h := ihv cs (by omega)
            rw [hres] at h
            simp at h
    · rcases cs with _ | ⟨c, cs⟩
      · simp [parseObjectLoopF]
      · simp only [List.length_cons] at hlen
        simp only [parseObjectLoopF]
        split_ifs
        · exact iho head buffer key value cs (by omega)
        · cases key with
          | none => exact iho _ _ _ _ cs (by omega)
          | some k =>
            cases value with
            | some v => exact iho _ _ _ _ cs (by omega)
            | none =>
              dsimp only
              rcases hres : parseValueF f cs with ⟨r, rest⟩
              have hrest : rest.length ≤ cs.length := by
                have h := parseValueF_rest_le f cs
                rw [hres] at h
                simpa using h
              cases r with
              | ok v => exact iho _ _ _ _ rest (by omega)
              | err e => simp
              | panic => simp
              | outOfFuel =>
                have h := ihv cs (by omega)
                rw [hres] at h
                simp at h
        · cases key <;> cases value <;> exact iho _ _ _ _ cs (by omega)
        · cases key with
          | some k => cases value <;> exact iho _ _ _ _ cs (by omega)
          | none =>
            cases value with
            | some v => exact iho _ _ _ _ cs (by omega)
            | none =>
              dsimp only
              rcases hres : parse_string head cs with ⟨r, rest⟩
              have hrest : rest.length ≤ cs.length := by
                have h := parse_string_rest_le head cs
                rw [hres] at h
                simpa using h
              cases r with
              | ok v =>
                dsimp only
                rcases hgs : v.get_string with _ | s <;> dsimp only <;>
                  exact iho _ _ _ _ rest (by omega)
              | err e => simp
              | panic => simp
              | outOfFuel =>
                have h := parse_string_ne_outOfFuel head cs
                rw [hres] at h
                simp at h
        · exact iho _ _ _ _ cs (by omega)

theorem parseValueF_no_outOfFuel (f : Nat) (cs : List Char) (h : cs.length < f) :
    (parseValueF f cs).1 ≠ PRes.outOfFuel :=
  (parseValueF_no_outOfFuel_aux f).1 cs h


/-! Claim theorems. -/

/-- Claim C1: the spec says the top-level parse entry point is total over all
UTF-8 input, returning ok or a structured error and never an uncatchable
fault.  The code is not: parse_object has no success path and falls through
to a todo-style abort when the input is exhausted, so parsing the two
character input of an open and a close brace panics. -/
theorem claim_C1_panic : parse_json "\x7b\x7d" = PRes.panic := rfl

/-- Claim C2: the spec requires a dedicated duplicate-key error for inputs
such as an object repeating the key a.  The code has no duplicate-key error
variant at all, its map insert overwrites, and on this very input it fails
with the generic UnexpectedToken before any key is read, because
parse_object hands its own head character (the opening brace) to
parse_string when reading a key. -/
theorem claim_C2_no_duplicate_key_error :
    parse_json "\x7b\"a\":1,\"a\":2\x7d" = PRes.err JsonError.UnexpectedToken := rfl

/-- Claim C3: the spec says the string literal with escaped newline, tab,
backslash and quote decodes to exactly those four characters with no
delimiter included.  The escapes are decoded as claimed, but the code
prepends the opening quote to the output (format of head then buffer), so
the result has five characters with a leading double quote; on the code's
own unit-test input it likewise returns quote-t-e-s-t where the test
expects t-e-s-t. -/
theorem claim_C3_delimiter_in_output :
    parse_string '"' ['\\', 'n', '\\', 't', '\\', '\\', '\\', '"', '"'] =
      (PRes.ok (JsonValue.String "\"\n\t\\\""), []) ∧
    "\"\n\t\\\"".length = 5 ∧
    parse_string '"' ['t', 'e', 's', 't', '"'] = (PRes.ok (JsonValue.String "\"test"), []) :=
  ⟨rfl, rfl, rfl⟩

/-- Claim C4: the spec requires UnexpectedEndOfInput when the cursor is
exhausted before an unescaped closing quote, never a successful Null.  The
code only does so when exhaustion happens right after a backslash; plain
exhaustion returns Ok(Null). -/
theorem claim_C4_unterminated_string_null :
    parse_string '"' ['a', 'b', 'c'] = (PRes.ok JsonValue.Null, []) ∧
    parse_string '"' ['a', '\\'] = (PRes.err JsonError.UnexpectedEndOfInput, []) :=
  ⟨rfl, rfl⟩

/-- Claim C5: the spec requires end-of-input errors for truncated containers
and forbids success with a partial tree.  The code instead: the truncated
object fails with UnexpectedToken (the key bug of parse_object), the
truncated array of one string fails with UnexpectedTokenCh of the letter a
(parse_array drops the first character of each element), and the truncated
array holding 12 succeeds with a partial tree. -/
theorem claim_C5_exhaustion :
    parse_json "\x7b\"a\":" = PRes.err JsonError.UnexpectedToken ∧
    parse_json "[\"a\"" = PRes.err (JsonError.UnexpectedTokenCh 'a') ∧
    parse_json "[12" = PRes.ok (JsonValue.Array [JsonValue.Integer 2]) :=
  ⟨rfl, rfl, rfl⟩

/-- Claim C6: in the number accumulation loop a second decimal point yields
OverOneDecimalPoint, and a first decimal point whose tracked previous
character is not a digit yields DecimalPointPlacedAfter with that character;
hence the literal minus-point-five fails with the placement error and the
literal 1.2.3 fails with the duplicate-point error. -/
theorem claim_C6_decimal_points :
    (∀ (buffer : String) (previous : Char) (cs : List Char),
      parseNumberLoop buffer true previous ('.' :: cs) =
        (Except.error JsonError.OverOneDecimalPoint, cs)) ∧
    (∀ (buffer : String) (previous : Char) (cs : List Char),
      rust_is_digit10 previous = false →
        parseNumberLoop buffer false previous ('.' :: cs) =
          (Except.error (JsonError.DecimalPointPlacedAfter previous), cs)) ∧
    parse_number '-' ['.', '5'] = (PRes.err (JsonError.DecimalPointPlacedAfter '-'), ['5']) ∧
    parse_number '1' ['.', '2', '.', '3'] = (PRes.err JsonError.OverOneDecimalPoint, ['3']) := by
  refine ⟨fun buffer previous cs => ?_, fun buffer previous cs h => ?_, rfl, rfl⟩
  · rfl
  · simp [parseNumberLoop, h]

/-- Witness for claim C6 at concrete inputs. -/
theorem claim_C6_witness :
    parseNumberLoop (String.singleton '1') true '1' ('.' :: ['7']) =
      (Except.error JsonError.OverOneDecimalPoint, ['7']) ∧
    parseNumberLoop (String.singleton '-') false '-' ('.' :: ['5']) =
      (Except.error (JsonError.DecimalPointPlacedAfter '-'), ['5']) :=
  ⟨claim_C6_decimal_points.1 (String.singleton '1') '1' ['7'],
   claim_C6_decimal_points.2.1 (String.singleton '-') '-' ['5'] (by decide)⟩

/-- Errors produced by the number accumulation loop are only the decimal
point errors and the unexpected character error: never the leading-zero
error (declared but unenforced in the source) and never the conversion
errors, which only the post-loop conversions can produce. -/
theorem parseNumberLoop_error_not (cs : List Char) :
    ∀ (buffer : String) (fp : Bool) (previous : Char) (e : JsonError) (rest : List Char),
      parseNumberLoop buffer fp previous cs = (.error e, rest) →
      e ≠ JsonError.IntegerWithLeadingZero ∧
        (∀ b ec, e ≠ JsonError.InconvertibleToFloat b ec) ∧
        (∀ b ec, e ≠ JsonError.InconvertibleToInt b ec) := by
  induction cs with
  | nil =>
    intro buffer fp previous e rest h
    simp [parseNumberLoop] at h
  | cons c rest0 ih =>
    intro buffer fp previous e rest h
    simp only [parseNumberLoop] at h
    split_ifs at h <;>
      first
        | (exact ih _ _ _ _ _ h)
        | (simp only [Prod.mk.injEq, Except.error.injEq] at h
           obtain ⟨hA, hB⟩ := h
           subst hA
           exact ⟨by simp, fun b ec => by simp, fun b ec => by simp⟩)
        | (exact absurd h (by simp))

/-- Claim C7: after the accumulation loop terminates normally (on a comma, a
closing brace, a closing bracket or exhaustion), parse_number produces a
Float (or the float conversion error carrying the buffer and cause) exactly
when the floating_point flag was set by a decimal point, and an Integer (or
the integer conversion error) exactly otherwise; the declared
IntegerWithLeadingZero error is never returned and the leading-zero literal
0123 parses as the integer 123. -/
theorem claim_C7_number_conversion (head : Char) (cs : List Char) :
    ((parse_number head cs).1 ≠ PRes.err JsonError.IntegerWithLeadingZero) ∧
    (((∃ q, (parse_number head cs).1 = PRes.ok (JsonValue.Float q)) ∨
      (∃ b ec, (parse_number head cs).1 = PRes.err (JsonError.InconvertibleToFloat b ec))) ↔
      ((rust_is_digit10 head = true ∨ head = '-') ∧
        ∃ buf rest, parseNumberLoop (String.singleton head) false head cs =
          (Except.ok (buf, true), rest))) ∧
    (((∃ i, (parse_number head cs).1 = PRes.ok (JsonValue.Integer i)) ∨
      (∃ b ec, (parse_number head cs).1 = PRes.err (JsonError.InconvertibleToInt b ec))) ↔
      ((rust_is_digit10 head = true ∨ head = '-') ∧
        ∃ buf rest, parseNumberLoop (String.singleton head) false head cs =
          (Except.ok (buf, false), rest))) ∧
    parse_number '0' ['1', '2', '3'] = (PRes.ok (JsonValue.Integer 123), []) := by
  by_cases hh : rust_is_digit10 head = true ∨ head = '-'
  · rcases hres : parseNumberLoop (String.singleton head) false head cs with ⟨r, rest⟩
    cases r with
    | error e =>
      have hpn : parse_number head cs = (PRes.err e, rest) := by
        unfold parse_number
        rw [if_neg (not_not_intro hh), hres]
      obtain ⟨hz, hf, hi⟩ :=
        parseNumberLoop_error_not cs (String.singleton head) false head e rest hres
      refine ⟨?_, ?_, ?_, rfl⟩
      · rw [hpn]
        intro hq
        injection hq with hq
        exact hz hq
      · constructor
        · rintro (⟨q, hq⟩ | ⟨b, ec, hq⟩)
          · rw [hpn] at hq
            exact absurd hq (by simp)
          · rw [hpn] at hq
            injection hq with hq
            exact absurd hq (hf b ec)
        · rintro ⟨hh2, buf, rest2, heq⟩
          simp at heq
      · constructor
        · rintro (⟨i, hq⟩ | ⟨b, ec, hq⟩)
          · rw [hpn] at hq
            exact absurd hq (by simp)
          · rw [hpn] at hq
            injection hq with hq
            exact absurd hq (hi b ec)
        · rintro ⟨hh2, buf, rest2, heq⟩
          simp at heq
    | ok p =>
      rcases p with ⟨buf, fp⟩
      cases fp with
      | true =>
        cases hF : rustParseF64 buf.data with
        | ok q =>
          have hpn : parse_number head cs = (PRes.ok (JsonValue.Float q), rest) := by
            unfold parse_number
            rw [if_neg (not_not_intro hh), hres]
            simp [hF]
          refine ⟨?_, ?_, ?_, rfl⟩
          · rw [hpn]; simp
          · exact iff_of_true (Or.inl ⟨q, by rw [hpn]⟩) ⟨hh, buf, rest, rfl⟩
          · constructor
            · rintro (⟨i, hq⟩ | ⟨b, ec, hq⟩) <;> rw [hpn] at hq <;> exact absurd hq (by simp)
            · rintro ⟨hh2, buf2, rest2, heq⟩
              simp at heq
        | error ec =>
          have hpn : parse_number head cs =
              (PRes.err (JsonError.InconvertibleToFloat buf ec), rest) := by
            unfold parse_number
            rw [if_neg (not_not_intro hh), hres]
            simp [hF]
          refine ⟨?_, ?_, ?_, rfl⟩
          · rw [hpn]; simp
          · exact iff_of_true (Or.inr ⟨buf, ec, by rw [hpn]⟩) ⟨hh, buf, rest, rfl⟩
          · constructor
            · rintro (⟨i, hq⟩ | ⟨b, ec2, hq⟩) <;> rw [hpn] at hq <;> exact absurd hq (by simp)
            · rintro ⟨hh2, buf2, rest2, heq⟩
              simp at heq
      | false =>
        cases hI : rustParseI64 buf.data with
        | ok i =>
          have hpn : parse_number head cs = (PRes.ok (JsonValue.Integer i), rest) := by
            unfold parse_number
            rw [if_neg (not_not_intro hh), hres]
            simp [hI]
          refine ⟨?_, ?_, ?_, rfl⟩
          · rw [hpn]; simp
          · constructor
            · rintro (⟨q, hq⟩ | ⟨b, ec, hq⟩) <;> rw [hpn] at hq <;> exact absurd hq (by simp)
            · rintro ⟨hh2, buf2, rest2, heq⟩
              simp at heq
          · exact iff_of_true (Or.inl ⟨i, by rw [hpn]⟩) ⟨hh, buf, rest, rfl⟩
        | error ec =>
          have hpn : parse_number head cs =
              (PRes.err (JsonError.InconvertibleToInt buf ec), rest) := by
            unfold parse_number
            rw [if_neg (not_not_intro hh), hres]
            simp [hI]
          refine ⟨?_, ?_, ?_, rfl⟩
          · rw [hpn]; simp
          · constructor
            · rintro (⟨q, hq⟩ | ⟨b, ec2, hq⟩) <;> rw [hpn] at hq <;> exact absurd hq (by simp)
            · rintro ⟨hh2, buf2, rest2, heq⟩
              simp at heq
          · exact iff_of_true (Or.inr ⟨buf, ec, by rw [hpn]⟩) ⟨hh, buf, rest, rfl⟩
  · have hpn : parse_number head cs = (PRes.err (JsonError.UnexpectedTokenCh head), cs) := by
      unfold parse_number
      rw [if_pos hh]
    refine ⟨?_, ?_, ?_, rfl⟩
    · rw [hpn]; simp
    · constructor
      · rintro (⟨q, hq⟩ | ⟨b, ec, hq⟩) <;> rw [hpn] at hq <;> exact absurd hq (by simp)
      · rintro ⟨hh2, _⟩
        exact absurd hh2 hh
    · constructor
      · rintro (⟨i, hq⟩ | ⟨b, ec, hq⟩) <;> rw [hpn] at hq <;> exact absurd hq (by simp)
      · rintro ⟨hh2, _⟩
        exact absurd hh2 hh

/-- Witness for claim C7 at a concrete input. -/
theorem claim_C7_witness :
    (parse_number '0' ['1']).1 ≠ PRes.err JsonError.IntegerWithLeadingZero :=
  (claim_C7_number_conversion '0' ['1']).1

/-- Claim C8 counterexample: the array holding the literal 12 parses to a
value, but inserting a single space between the number token and the closing
bracket turns the parse into UnexpectedTokenCh of the space, because
parse_number only terminates on a comma, a closing brace, a closing bracket
or exhaustion and rejects whitespace.  (That the parsed element is 2 rather
than 12 is the separate first-character bug of parse_array.) -/
theorem claim_C8_counterexample :
    parse_json "[12]" = PRes.ok (JsonValue.Array [JsonValue.Integer 2]) ∧
    parse_json "[12 ]" = PRes.err (JsonError.UnexpectedTokenCh ' ') :=
  ⟨rfl, rfl⟩

/-- Claim C8 amended: whitespace insertion is harmless exactly where a value
dispatch is about to happen: the dispatcher consumes any leading run of
whitespace or control characters without changing the outcome (fuel
accounting aside).  It is not harmless immediately after a number literal,
as the counterexample shows. -/
theorem claim_C8_amended (f : Nat) (ws cs : List Char)
    (h : ∀ c ∈ ws, rust_is_whitespace c = true ∨ rust_is_control c = true) :
    parseValueF (ws.length + f) (ws ++ cs) = parseValueF f cs := by
  induction ws with
  | nil => simp
  | cons w ws ih =>
    have hw := h w (by simp)
    have hlen : (w :: ws).length + f = (ws.length + f) + 1 := by simp; omega
    rw [hlen]
    show parseValueF ((ws.length + f) + 1) (w :: (ws ++ cs)) = parseValueF f cs
    rw [parseValueF]  
    rw [if_pos hw]
    exact ih (fun c hc => h c (by simp [hc]))

/-- Witness for the amended claim C8 at a concrete input. -/
theorem claim_C8_witness :
    parseValueF ([' ', '\t'].length + 5) ([' ', '\t'] ++ ['t', 'r', 'u', 'e']) =
      parseValueF 5 ['t', 'r', 'u', 'e'] :=
  claim_C8_amended 5 [' ', '\t'] ['t', 'r', 'u', 'e'] (by decide)

/-- Characters routed to parse_number (a decimal digit or a minus sign) are
neither whitespace, control characters, boolean heads nor a double quote, so
the earlier dispatch branches do not fire on them. -/
theorem digit_or_minus_not_special (c : Char) (h : rust_is_digit10 c = true ∨ c = '-') :
    ¬(rust_is_whitespace c = true ∨ rust_is_control c = true) ∧
    ¬(c = 't' ∨ c = 'f') ∧ ¬(c = '"') := by
  rcases h with h | h
  · have hn : 48 ≤ c.toNat ∧ c.toNat ≤ 57 := by
      simpa [rust_is_digit10, decide_eq_true_eq] using h
    refine ⟨?_, ?_, ?_⟩
    · rintro (hw | hw) <;>
        (simp only [rust_is_whitespace, rust_is_control, decide_eq_true_eq] at hw; omega)
    · rintro (rfl | rfl) <;> exact absurd hn (by decide)
    · rintro rfl
      exact absurd hn (by decide)
  · subst h
    exact ⟨by decide, by decide, by decide⟩

/-- Claim C9: the value dispatcher skips whitespace and control characters,
then routes on the first significant character: t or f to the boolean
parser, a double quote to the string parser, a digit or minus to the number
parser, an opening brace to the object parser, an opening bracket to the
array parser; any other significant character yields UnexpectedTokenCh with
that character (in particular the input null fails with UnexpectedTokenCh of
the letter n, there being no null route), and exhaustion before a
significant character yields UnexpectedEndOfInput. -/
theorem claim_C9_dispatch :
    (∀ f : Nat, parseValueF (f + 1) [] = (PRes.err JsonError.UnexpectedEndOfInput, [])) ∧
    (∀ (f : Nat) (c : Char) (cs : List Char),
      rust_is_whitespace c = true ∨ rust_is_control c = true →
        parseValueF (f + 1) (c :: cs) = parseValueF f cs) ∧
    (∀ (f : Nat) (cs : List Char),
      parseValueF (f + 1) ('t' :: cs) = parse_boolean 't' cs ∧
      parseValueF (f + 1) ('f' :: cs) = parse_boolean 'f' cs) ∧
    (∀ (f : Nat) (cs : List Char), parseValueF (f + 1) ('"' :: cs) = parse_string '"' cs) ∧
    (∀ (f : Nat) (c : Char) (cs : List Char),
      rust_is_digit10 c = true ∨ c = '-' →
        parseValueF (f + 1) (c :: cs) = parse_number c cs) ∧
    (∀ (f : Nat) (cs : List Char),
      parseValueF (f + 1) ('\x7b' :: cs) = parse_objectF f '\x7b' cs) ∧
    (∀ (f : Nat) (cs : List Char),
      parseValueF (f + 1) ('[' :: cs) = parse_arrayF f '[' cs) ∧
    (∀ (f : Nat) (c : Char) (cs : List Char),
      ¬(rust_is_whitespace c = true ∨ rust_is_control c = true) →
      ¬(c = 't' ∨ c = 'f') → ¬(c = '"') → ¬(rust_is_digit10 c = true ∨ c = '-') →
      ¬(c = '\x7b') → ¬(c = '[') →
        parseValueF (f + 1) (c :: cs) = (PRes.err (JsonError.UnexpectedTokenCh c), cs)) ∧
    parse_json "null" = PRes.err (JsonError.UnexpectedTokenCh 'n') := by
  refine ⟨fun f => rfl, fun f c cs h => ?_, fun f cs => ⟨rfl, rfl⟩, fun f cs => rfl,
    fun f c cs h => ?_, fun f cs => rfl, fun f cs => rfl,
    fun f c cs h1 h2 h3 h4 h5 h6 => ?_, rfl⟩
  · rw [parseValueF, if_pos h]
  · obtain ⟨h1, h2, h3⟩ := digit_or_minus_not_special c h
    rw [parseValueF, if_neg h1, if_neg h2, if_neg h3, if_pos h]
  · rw [parseValueF, if_neg h1, if_neg h2, if_neg h3, if_neg h4, if_neg h5, if_neg h6]

/-- Witness for claim C9 at concrete inputs. -/
theorem claim_C9_witness :
    parseValueF 3 (' ' :: ['1']) = parseValueF 2 ['1'] ∧
    parseValueF 7 ('-' :: ['3']) = parse_number '-' ['3'] ∧
    parseValueF 4 ('*' :: ['a']) = (PRes.err (JsonError.UnexpectedTokenCh '*'), ['a']) :=
  ⟨claim_C9_dispatch.2.1 2 ' ' ['1'] (by decide),
   claim_C9_dispatch.2.2.2.2.1 6 '-' ['3'] (by decide),
   claim_C9_dispatch.2.2.2.2.2.2.2.1 3 '*' ['a'] (by decide) (by decide) (by decide)
     (by decide) (by decide) (by decide)⟩

/-- Claim C10: every top-level parse invocation terminates.  In the fuel
encoding this is the statement that the fuel supplied by parse_json (input
length plus one) never runs out, which holds because every dispatcher step
and loop iteration consumes at least one character: the remaining input
never grows, and a dispatch on a nonempty input strictly shrinks it, so the
recursion depth is bounded by the remaining input length. -/
theorem claim_C10_termination :
    (∀ s : String, parse_json s ≠ PRes.outOfFuel) ∧
    (∀ (f : Nat) (cs : List Char), cs.length < f → (parseValueF f cs).1 ≠ PRes.outOfFuel) ∧
    (∀ (f : Nat) (cs : List Char), (parseValueF f cs).2.length ≤ cs.length) ∧
    (∀ (f : Nat) (c : Char) (cs : List Char),
      (parseValueF (f + 1) (c :: cs)).2.length < (c :: cs).length) := by
  refine ⟨?_, fun f cs h => parseValueF_no_outOfFuel f cs h,
    fun f cs => parseValueF_rest_le f cs, ?_⟩
  · intro s
    have hlen : s.data.length < s.length + 1 := by
      have : s.length = s.data.length := rfl
      omega
    exact parseValueF_no_outOfFuel (s.length + 1) s.data hlen
  · intro f c cs
    have hv := parseValueF_rest_le f cs
    have hb := parse_boolean_rest_le c cs
    have hs := parse_string_rest_le c cs
    have hn := parse_number_rest_le c cs
    have ho := parseObjectLoopF_rest_le f c [] none none cs
    have ha := parseArrayLoopF_rest_le f [] cs
    rw [parseValueF]
    split_ifs <;> simp only [List.length_cons] <;> omega

/-- Witness for claim C10 at concrete inputs. -/
theorem claim_C10_witness :
    parse_json "[1, 2]" ≠ PRes.outOfFuel ∧
    (parseValueF 2 ['4']).1 ≠ PRes.outOfFuel ∧
    (parseValueF 3 ('5' :: [','])).2.length < 2 :=
  ⟨claim_C10_termination.1 "[1, 2]",
   claim_C10_termination.2.1 2 ['4'] (by decide),
   claim_C10_termination.2.2.2 2 '5' [',']⟩
